import Mathlib

/-!
Shallow embedding of `crates/lang/ir/src/ir/event_def.rs`: the ink! event
definition IR extraction and validation pass, together with the attribute
partitioning utilities of the `ir` module that the file relies on.  The
syntax-tree types mirror the shapes of the `syn` crate, restricted to the
parts that the pass inspects.  The attribute utilities
(`ir::partition_attributes`, `ir::sanitize_attributes`,
`InkAttribute::from_expanded`, `ir::first_ink_attribute`) and the legacy
struct-shaped entry point are not part of the sources of this development,
so they are modelled from the specification (sections 4.1 and 4.2), as
marked on their doc comments.
-/

/-- Kinds of ink! attribute arguments (`ir::AttributeArg`), restricted to
the kinds exercised by the event definition pass and its tests. -/
inductive AttributeArg where
  | event
  | anonymous
  | topic
  | storage
  | message
  | payable
deriving DecidableEq, Repr

/-- The error taxonomy of the pass (spec section 7).  The Rust code raises
these as `syn::Error` values carrying the message strings recorded by
`Error.message` below; the constructor `DuplicateAttribute` corresponds to
the taxonomy entry for duplicated domain argument kinds. -/
inductive Error where
  | DuplicateAttribute
  | ConflictingAttributeArgument
  | EmptyExpandedAttributes
  | UnexpectedFirstAttributeArgument
  | GenericNotSupported
  | NonPublicNotSupported
  | InvalidFirstFieldAttribute
  | ConflictingFieldAttribute
deriving DecidableEq, Repr

/-- The user-visible message text each error kind carries. -/
def Error.message : Error → String
  | Error.DuplicateAttribute => "encountered duplicate ink! attribute"
  | Error.ConflictingAttributeArgument =>
      "encountered conflicting ink! attribute argument"
  | Error.EmptyExpandedAttributes =>
      "encountered unexpected empty expanded ink! attribute arguments"
  | Error.UnexpectedFirstAttributeArgument =>
      "unexpected first ink! attribute argument"
  | Error.GenericNotSupported => "generic ink! event structs are not supported"
  | Error.NonPublicNotSupported => "non `pub` ink! event structs are not supported"
  | Error.InvalidFirstFieldAttribute =>
      "first optional ink! attribute of an event field must be #[ink(topic)]"
  | Error.ConflictingFieldAttribute =>
      "encountered conflicting ink! attribute for event field"

/-- A raw attribute attached to a syntax node (`syn::Attribute`): either an
ink! (domain) attribute carrying its comma-separated argument kinds, or a
foreign attribute which the pass passes through untouched. -/
inductive Syn.Attribute where
  | ink (args : List AttributeArg)
  | foreign (name : String)
deriving DecidableEq, Repr

/-- Visibility of a declaration (`syn::Visibility`), restricted to the
distinction the pass makes: public versus everything else. -/
inductive Syn.Visibility where
  | public
  | inherited
deriving DecidableEq, Repr

/-- A field of a variant (`syn::Field`): its attributes, its optional
identifier and its (opaque) type. -/
structure Syn.Field where
  attrs : List Syn.Attribute
  ident : Option String
  ty : String
deriving DecidableEq, Repr

/-- A variant of a tagged-union declaration (`syn::Variant`). -/
structure Syn.Variant where
  ident : String
  fields : List Syn.Field
deriving DecidableEq, Repr

/-- The tagged-union declaration (`syn::ItemEnum`), restricted to the
components the pass inspects. -/
structure Syn.ItemEnum where
  attrs : List Syn.Attribute
  vis : Syn.Visibility
  ident : String
  generics : List String
  variants : List Syn.Variant
deriving DecidableEq, Repr

/-- The legacy struct-shaped declaration (`syn::ItemStruct`). -/
structure Syn.ItemStruct where
  attrs : List Syn.Attribute
  vis : Syn.Visibility
  ident : String
  generics : List String
  fields : List Syn.Field
deriving DecidableEq, Repr

/-- The argument-kind lists of the domain (ink!) attributes of a node, in
order. -/
def domainArgLists (attrs : List Syn.Attribute) : List (List AttributeArg) :=
  attrs.filterMap fun a =>
    match a with
    | Syn.Attribute.ink args => some args
    | Syn.Attribute.foreign _ => none

/-- The foreign (non-ink!) attributes of a node, in order. -/
def foreignAttrs (attrs : List Syn.Attribute) : List Syn.Attribute :=
  attrs.filter fun a =>
    match a with
    | Syn.Attribute.ink _ => false
    | Syn.Attribute.foreign _ => true

/-- All domain argument kinds of a node, flattened in order. -/
def domainArgs (attrs : List Syn.Attribute) : List AttributeArg :=
  (domainArgLists attrs).flatten

/-- Whether an argument-kind list mentions some kind twice. -/
def hasDupKinds : List AttributeArg → Bool
  | [] => false
  | a :: rest => decide (a ∈ rest) || hasDupKinds rest

/-- A normalized ink! attribute (`ir::InkAttribute`): a non-empty list of
argument kinds with the first element addressable separately. -/
structure InkAttribute where
  first : AttributeArg
  rest : List AttributeArg
deriving DecidableEq, Repr

/-- All argument kinds of a normalized ink! attribute
(`InkAttribute::args`). -/
def InkAttribute.args (a : InkAttribute) : List AttributeArg :=
  a.first :: a.rest

/-- `InkAttribute::is_anonymous`: whether any argument kind is
`Anonymous`. -/
def InkAttribute.is_anonymous (a : InkAttribute) : Bool :=
  a.args.any fun arg => decide (arg = AttributeArg.anonymous)

/-- Modelled from the spec: `ir::partition_attributes` (section 4.1), whose
source is not part of this development.  It splits the raw attributes of a
node into domain annotations and foreign annotations, both in original
order, failing when a domain annotation carries no argument kinds at all
(`EmptyExpandedAttributes`) or when some argument kind appears twice across
the domain annotations (`DuplicateAttribute`). -/
def partition_attributes (attrs : List Syn.Attribute) :
    Except Error (List (List AttributeArg) × List Syn.Attribute) :=
  let dom := domainArgLists attrs
  if dom.any List.isEmpty then Except.error Error.EmptyExpandedAttributes
  else if hasDupKinds dom.flatten then Except.error Error.DuplicateAttribute
  else Except.ok (dom, foreignAttrs attrs)

/-- Modelled from the spec: `InkAttribute::from_expanded` (section 4.1),
whose source is not part of this development.  It flattens a list of domain
annotations into one normalized attribute, failing with
`EmptyExpandedAttributes` when zero argument kinds result. -/
def InkAttribute.from_expanded (gs : List (List AttributeArg)) :
    Except Error InkAttribute :=
  match gs.flatten with
  | [] => Except.error Error.EmptyExpandedAttributes
  | a :: rest => Except.ok ⟨a, rest⟩

/-- Modelled from the spec: `ir::sanitize_attributes` (sections 4.1 and
4.2), whose source is not part of this development.  It partitions and
normalizes the attributes of a node, requires the first argument kind to be
`first_req` (`UnexpectedFirstAttributeArgument` otherwise) and requires
every argument kind to satisfy the caller-supplied predicate
(`ConflictingAttributeArgument` otherwise). -/
def sanitize_attributes (attrs : List Syn.Attribute) (first_req : AttributeArg)
    (pred : AttributeArg → Bool) :
    Except Error (InkAttribute × List Syn.Attribute) := do
  let (inks, others) ← partition_attributes attrs
  let normalized ← InkAttribute.from_expanded inks
  if normalized.first ≠ first_req then
    Except.error Error.UnexpectedFirstAttributeArgument
  else if normalized.args.all pred then
    Except.ok (normalized, others)
  else
    Except.error Error.ConflictingAttributeArgument

/-- Modelled from the spec: `ir::first_ink_attribute`, whose source is not
part of this development.  It returns the first domain annotation of a node
normalized, `none` when the node carries no domain annotation, and an error
when that annotation is malformed (argument-less or with duplicated
kinds). -/
def first_ink_attribute (attrs : List Syn.Attribute) :
    Except Error (Option InkAttribute) :=
  match domainArgLists attrs with
  | [] => Except.ok none
  | args :: _ =>
    match args with
    | [] => Except.error Error.EmptyExpandedAttributes
    | a :: rest =>
      if hasDupKinds (a :: rest) then Except.error Error.DuplicateAttribute
      else Except.ok (some ⟨a, rest⟩)

/-- The checked ink! event definition (`InkEventDefinition`). -/
structure InkEventDefinition where
  item : Syn.ItemEnum
  anonymous : Bool
deriving DecidableEq, Repr

/-- The per-field validation performed by the body of the field loop of
`InkEventDefinition::new` (event_def.rs lines 73 to 97): fields without
domain annotations are skipped; otherwise the normalized first argument
kind must be `Topic` and every argument kind must be `Topic`. -/
def checkField (field : Syn.Field) : Except Error Unit := do
  let (ink_attrs, _) ← partition_attributes field.attrs
  if ink_attrs.isEmpty then Except.ok ()
  else do
    let normalized ← InkAttribute.from_expanded ink_attrs
    if normalized.first ≠ AttributeArg.topic then
      Except.error Error.InvalidFirstFieldAttribute
    else if normalized.args.all (fun a => decide (a = AttributeArg.topic)) then
      Except.ok ()
    else
      Except.error Error.ConflictingFieldAttribute

/-- The inner loop of `InkEventDefinition::new` over the fields of one
variant. -/
def checkFields : List Syn.Field → Except Error Unit
  | [] => Except.ok ()
  | f :: fs => do
    checkField f
    checkFields fs

/-- The outer loop of `InkEventDefinition::new` over the variants. -/
def checkVariants : List Syn.Variant → Except Error Unit
  | [] => Except.ok ()
  | v :: vs => do
    checkFields v.fields
    checkVariants vs

/-- `InkEventDefinition::new` (event_def.rs lines 71 to 103): validates
every field of every variant and assembles the IR. -/
def InkEventDefinition.new (item : Syn.ItemEnum) (anonymous : Bool) :
    Except Error InkEventDefinition := do
  checkVariants item.variants
  Except.ok ⟨item, anonymous⟩

/-- The predicate the event definition pass hands to the sanitizer: only
`Event` and `Anonymous` argument kinds are allowed on the declaration. -/
def eventDeclPred (arg : AttributeArg) : Bool :=
  decide (arg = AttributeArg.event) || decide (arg = AttributeArg.anonymous)

/-- `TryFrom<syn::ItemEnum> for InkEventDefinition` (event_def.rs lines 40
to 59): sanitizes the declaration attributes requiring `Event` first and
only `Event` or `Anonymous` overall, strips the ink! attributes from the
item, and delegates to `InkEventDefinition::new` with the anonymity flag
read off the normalized attribute. -/
def InkEventDefinition.tryFrom (item_enum : Syn.ItemEnum) :
    Except Error InkEventDefinition := do
  let (ink_attrs, other_attrs) ←
    sanitize_attributes item_enum.attrs AttributeArg.event eventDeclPred
  InkEventDefinition.new { item_enum with attrs := other_attrs }
    ink_attrs.is_anonymous

/-- `InkEventDefinition::from_event_def_tokens` (event_def.rs lines 105 to
115).  The two token streams are consumed through `syn::parse2`, an
external parser, so they are modelled by their parse results; the
`anonymous` flag is hardcoded to `false` exactly as in the source (marked
there with a todo note). -/
def InkEventDefinition.from_event_def_tokens
    (config : Except Error (List AttributeArg))
    (input : Except Error Syn.ItemEnum) : Except Error InkEventDefinition := do
  let _parsed_config ← config
  let anonymous := false
  let item ← input
  Except.ok ⟨item, anonymous⟩

/-- Modelled from the spec: the legacy struct-shaped entry point
(`TryFrom<syn::ItemStruct> for InkEventDefinition`, named `fromLegacyShape`
by the spec, section 4.2), whose source is not part of this
development though the unit tests of event_def.rs exercise it.  Following
the declaration-level rule order of section 4.2 it sanitizes the
declaration attributes, rejects generic declarations
(`GenericNotSupported`) and non-public declarations
(`NonPublicNotSupported`), then canonicalizes the struct into a
single-variant enum and delegates to `InkEventDefinition::new`. -/
def InkEventDefinition.tryFromItemStruct (s : Syn.ItemStruct) :
    Except Error InkEventDefinition := do
  let (ink_attrs, other_attrs) ←
    sanitize_attributes s.attrs AttributeArg.event eventDeclPred
  if s.generics ≠ [] then Except.error Error.GenericNotSupported
  else if s.vis ≠ Syn.Visibility.public then
    Except.error Error.NonPublicNotSupported
  else
    InkEventDefinition.new ⟨other_attrs, s.vis, s.ident, [], [⟨s.ident, s.fields⟩]⟩
      ink_attrs.is_anonymous

/-- `InkEventDefinition::ident`. -/
def InkEventDefinition.ident (ed : InkEventDefinition) : String :=
  ed.item.ident

/-- `InkEventDefinition::attrs`: the non-ink! attributes of the item. -/
def InkEventDefinition.attrs (ed : InkEventDefinition) : List Syn.Attribute :=
  ed.item.attrs

/-- A view over one variant (`EventVariant`). -/
structure EventVariant where
  index : Nat
  item : Syn.Variant
deriving DecidableEq, Repr

/-- `InkEventDefinition::variants`: every variant paired with its
zero-based index. -/
def InkEventDefinition.variants (ed : InkEventDefinition) : List EventVariant :=
  ed.item.variants.enum.map fun p => ⟨p.1, p.2⟩

/-- The `is_topic` computation of `EventVariant::fields` (event_def.rs
lines 167 to 170): the first ink! attribute of the field is extracted, any
error is swallowed into `none` (`unwrap_or_default`), and the flag is
whether its first argument kind is `Topic`, defaulting to `false`. -/
def isTopicFlag (attrs : List Syn.Attribute) : Bool :=
  (Option.map (fun (attr : InkAttribute) => decide (attr.first = AttributeArg.topic))
    (match first_ink_attribute attrs with
     | Except.ok o => o
     | Except.error _ => none)).getD false

/-- A view over one field with its topic flag (`EventField`). -/
structure EventField where
  is_topic : Bool
  field : Syn.Field
deriving DecidableEq, Repr

/-- `EventVariant::fields` (event_def.rs lines 163 to 173): one `EventField`
view per field of the variant, in order. -/
def EventVariant.fields (v : EventVariant) : List EventField :=
  v.item.fields.map fun field => ⟨isTopicFlag field.attrs, field⟩

/-- `InkEventDefinition::max_len_topics` (event_def.rs lines 132 to 141):
the maximum over the variants of the count of topic fields, zero when
there is no variant. -/
def InkEventDefinition.max_len_topics (ed : InkEventDefinition) : Nat :=
  ((ed.variants.map fun v => (v.fields.filter fun f => f.is_topic).length).max?).getD 0

/-- Outcome of a Rust computation that may panic (`expect`). -/
inductive PanicOr (α : Type) where
  | panicked (msg : String)
  | ok (val : α)
deriving DecidableEq, Repr

/-- `EventField::attrs` (event_def.rs lines 191 to 196): partitions the
attributes of the field and returns the non-ink! ones, but calls `expect`
on the partition result, so a partition failure panics. -/
def EventField.attrs (f : EventField) : PanicOr (List Syn.Attribute) :=
  match partition_attributes f.field.attrs with
  | Except.ok p => PanicOr.ok p.2
  | Except.error _ => PanicOr.panicked "encountered invalid event field attributes"

/-- Whether a field carries the `Topic` marker among its domain argument
kinds. -/
def carriesTopic (f : Syn.Field) : Bool :=
  decide (AttributeArg.topic ∈ domainArgs f.attrs)

/-!
Concrete fixtures used by the theorems below.
-/

def itemC1 : Syn.ItemEnum :=
  ⟨[Syn.Attribute.ink [AttributeArg.storage, AttributeArg.storage]],
    Syn.Visibility.public, "E", [], []⟩

def itemW1a : Syn.ItemEnum :=
  ⟨[Syn.Attribute.ink [AttributeArg.storage]], Syn.Visibility.public, "E", [], []⟩

def itemW1b : Syn.ItemEnum :=
  ⟨[Syn.Attribute.ink [AttributeArg.event, AttributeArg.storage]],
    Syn.Visibility.public, "E", [], []⟩

def fieldC2 : Syn.Field :=
  ⟨[Syn.Attribute.ink [AttributeArg.topic, AttributeArg.storage, AttributeArg.storage]],
    some "f", "u32"⟩

def itemC2 : Syn.ItemEnum :=
  ⟨[], Syn.Visibility.public, "E", [], [⟨"A", [fieldC2]⟩]⟩

def fieldW2 : Syn.Field := ⟨[Syn.Attribute.ink [AttributeArg.message]], some "f", "u32"⟩

def itemW2 : Syn.ItemEnum := ⟨[], Syn.Visibility.public, "E", [], [⟨"A", [fieldW2]⟩]⟩

def fieldTopicFix : Syn.Field :=
  ⟨[Syn.Attribute.ink [AttributeArg.topic]], some "a", "i32"⟩

def fieldPlainFix : Syn.Field := ⟨[], some "b", "bool"⟩

def itemW3 : Syn.ItemEnum :=
  ⟨[], Syn.Visibility.public, "E", [], [⟨"A", [fieldTopicFix, fieldPlainFix]⟩]⟩

def itemW4 : Syn.ItemEnum :=
  ⟨[Syn.Attribute.ink [AttributeArg.event, AttributeArg.anonymous]],
    Syn.Visibility.public, "E", [],
    [⟨"A", [fieldTopicFix, fieldPlainFix]⟩]⟩

def edW5 : InkEventDefinition :=
  ⟨⟨[], Syn.Visibility.public, "E", [],
    [⟨"A", [fieldTopicFix]⟩, ⟨"B", [fieldPlainFix]⟩,
      ⟨"C", [fieldTopicFix, ⟨[Syn.Attribute.ink [AttributeArg.topic]], some "g", "u8"⟩]⟩]⟩,
    false⟩

def sC6 : Syn.ItemStruct :=
  ⟨[Syn.Attribute.ink [AttributeArg.storage]], Syn.Visibility.public, "E", ["T"], []⟩

def sW6a : Syn.ItemStruct :=
  ⟨[Syn.Attribute.ink [AttributeArg.event]], Syn.Visibility.public, "E", ["T"], []⟩

def sW6b : Syn.ItemStruct :=
  ⟨[Syn.Attribute.ink [AttributeArg.event]], Syn.Visibility.inherited, "E", [], []⟩

def fieldC7 : Syn.Field := ⟨[Syn.Attribute.ink [AttributeArg.event]], some "f", "u32"⟩

def itemC7 : Syn.ItemEnum := ⟨[], Syn.Visibility.public, "E", [], [⟨"A", [fieldC7]⟩]⟩

def itemW7 : Syn.ItemEnum :=
  ⟨[Syn.Attribute.ink [AttributeArg.event]], Syn.Visibility.public, "E", [], []⟩

def fieldC8 : Syn.Field :=
  ⟨[Syn.Attribute.ink [AttributeArg.topic], Syn.Attribute.ink [AttributeArg.topic]],
    some "f", "u32"⟩

def itemC8 : Syn.ItemEnum := ⟨[], Syn.Visibility.public, "E", [], [⟨"A", [fieldC8]⟩]⟩

def itemW8 : Syn.ItemEnum :=
  ⟨[], Syn.Visibility.public, "E", [], [⟨"A", [fieldTopicFix]⟩]⟩

-- Supporting lemmas

theorem hasDupKinds_cons {a : AttributeArg} {l : List AttributeArg} :
    hasDupKinds (a :: l) = false ↔ a ∉ l ∧ hasDupKinds l = false := by
  simp [hasDupKinds]

theorem partition_attributes_ok_iff {attrs : List Syn.Attribute}
    {p : List (List AttributeArg) × List Syn.Attribute} :
    partition_attributes attrs = Except.ok p ↔
      ((domainArgLists attrs).any List.isEmpty = false
        ∧ hasDupKinds (domainArgs attrs) = false
        ∧ p = (domainArgLists attrs, foreignAttrs attrs)) := by
  by_cases h1 : (domainArgLists attrs).any List.isEmpty
  · simp [partition_attributes, h1]
  · by_cases h2 : hasDupKinds (domainArgs attrs)
    · simp only [domainArgs] at h2
      simp [partition_attributes, h1, h2, domainArgs]
    · simp only [partition_attributes, domainArgs] at h2 ⊢
      simp [h1, h2, Except.ok.injEq, eq_comm]

theorem partition_attributes_eq_of_no_domain {attrs : List Syn.Attribute}
    (h : domainArgLists attrs = []) :
    partition_attributes attrs = Except.ok ([], foreignAttrs attrs) := by
  rw [partition_attributes_ok_iff]
  simp [h, domainArgs, hasDupKinds]

theorem checkField_no_domain {f : Syn.Field} (h : domainArgLists f.attrs = []) :
    checkField f = Except.ok () := by
  unfold checkField
  rw [partition_attributes_eq_of_no_domain h]
  simp [Bind.bind, Except.bind]

theorem except_bind_ok {α β : Type} (a : α) (k : α → Except Error β) :
    ((Except.ok a : Except Error α) >>= k) = k a := rfl

theorem except_bind_error {α β : Type} (e : Error) (k : α → Except Error β) :
    ((Except.error e : Except Error α) >>= k) = Except.error e := rfl

theorem checkFields_cons (f : Syn.Field) (fs : List Syn.Field) :
    checkFields (f :: fs) = (checkField f >>= fun _ => checkFields fs) := rfl

theorem checkVariants_cons (v : Syn.Variant) (vs : List Syn.Variant) :
    checkVariants (v :: vs) = (checkFields v.fields >>= fun _ => checkVariants vs) := rfl

theorem checkFields_append_clean {pre : List Syn.Field}
    (h : ∀ g ∈ pre, checkField g = Except.ok ()) (rest : List Syn.Field) :
    checkFields (pre ++ rest) = checkFields rest := by
  induction pre with
  | nil => rfl
  | cons g gs ih =>
    rw [List.cons_append, checkFields_cons, h g (by simp), except_bind_ok]
    exact ih (fun x hx => h x (by simp [hx]))

theorem checkFields_ok_mem {l : List Syn.Field} (h : checkFields l = Except.ok ()) :
    ∀ f ∈ l, checkField f = Except.ok () := by
  induction l with
  | nil => simp
  | cons g gs ih =>
    rw [checkFields_cons] at h
    cases hg : checkField g with
    | error e => rw [hg, except_bind_error] at h; exact absurd h (by simp)
    | ok u =>
      cases u
      rw [hg, except_bind_ok] at h
      intro f hf
      rcases List.mem_cons.mp hf with rfl | hf
      · exact hg
      · exact ih h f hf

theorem checkVariants_append_clean {pre : List Syn.Variant}
    (h : ∀ w ∈ pre, checkFields w.fields = Except.ok ()) (rest : List Syn.Variant) :
    checkVariants (pre ++ rest) = checkVariants rest := by
  induction pre with
  | nil => rfl
  | cons w ws ih =>
    rw [List.cons_append, checkVariants_cons, h w (by simp), except_bind_ok]
    exact ih (fun x hx => h x (by simp [hx]))

theorem checkVariants_ok_mem {l : List Syn.Variant}
    (h : checkVariants l = Except.ok ()) :
    ∀ v ∈ l, checkFields v.fields = Except.ok () := by
  induction l with
  | nil => simp
  | cons w ws ih =>
    rw [checkVariants_cons] at h
    cases hw : checkFields w.fields with
    | error e => rw [hw, except_bind_error] at h; exact absurd h (by simp)
    | ok u =>
      cases u
      rw [hw, except_bind_ok] at h
      intro v hv
      rcases List.mem_cons.mp hv with rfl | hv
      · exact hw
      · exact ih h v hv

theorem new_eq (item : Syn.ItemEnum) (anonymous : Bool) :
    InkEventDefinition.new item anonymous
      = (checkVariants item.variants >>= fun _ => Except.ok ⟨item, anonymous⟩) := rfl

theorem new_ok_iff {item : Syn.ItemEnum} {anonymous : Bool} {ed : InkEventDefinition} :
    InkEventDefinition.new item anonymous = Except.ok ed ↔
      (checkVariants item.variants = Except.ok () ∧ ed = ⟨item, anonymous⟩) := by
  rw [new_eq]
  cases hc : checkVariants item.variants with
  | error e => rw [except_bind_error]; simp
  | ok u => cases u; rw [except_bind_ok]; simp [eq_comm]

theorem new_error_iff {item : Syn.ItemEnum} {anonymous : Bool} {e : Error} :
    InkEventDefinition.new item anonymous = Except.error e ↔
      checkVariants item.variants = Except.error e := by
  rw [new_eq]
  cases hc : checkVariants item.variants with
  | error e2 => rw [except_bind_error]; simp
  | ok u => cases u; rw [except_bind_ok]; simp

theorem from_expanded_cons {gs : List (List AttributeArg)} {a : AttributeArg}
    {rest : List AttributeArg} (h : gs.flatten = a :: rest) :
    InkAttribute.from_expanded gs = Except.ok ⟨a, rest⟩ := by
  simp [InkAttribute.from_expanded, h]

theorem flatten_eq_nil_each_ne_nil {dom : List (List AttributeArg)}
    (hne : ∀ g ∈ dom, g ≠ []) (hf : dom.flatten = []) : dom = [] := by
  cases dom with
  | nil => rfl
  | cons g gs =>
    exfalso
    have hg := hne g (by simp)
    rw [List.flatten_cons, List.append_eq_nil] at hf
    exact hg hf.1

theorem eq_singleton_of_flatten_singleton {dom : List (List AttributeArg)}
    {x : AttributeArg} (hne : ∀ g ∈ dom, g ≠ []) (hf : dom.flatten = [x]) :
    dom = [[x]] := by
  cases dom with
  | nil => simp at hf
  | cons g gs =>
    rw [List.flatten_cons] at hf
    cases g with
    | nil => exact absurd rfl (hne [] (by simp))
    | cons y g2 =>
      rw [List.cons_append, List.cons.injEq] at hf
      obtain ⟨rfl, hf2⟩ := hf
      rw [List.append_eq_nil] at hf2
      obtain ⟨rfl, hgs⟩ := hf2
      have : gs = [] := flatten_eq_nil_each_ne_nil (fun h hm => hne h (by simp [hm])) hgs
      rw [this]

theorem all_topic_nodup_rest_nil {rest : List AttributeArg}
    (hall : ∀ a ∈ rest, a = AttributeArg.topic) (hni : AttributeArg.topic ∉ rest) :
    rest = [] := by
  cases rest with
  | nil => rfl
  | cons b bs =>
    exfalso
    apply hni
    rw [show b = AttributeArg.topic from hall b (by simp)] at hni ⊢
    exact List.mem_cons_self _ _

theorem partition_attributes_error_dup {attrs : List Syn.Attribute}
    (hne : ∀ g ∈ domainArgLists attrs, g ≠ [])
    (hdup : hasDupKinds (domainArgs attrs) = true) :
    partition_attributes attrs = Except.error Error.DuplicateAttribute := by
  have hany : (domainArgLists attrs).any List.isEmpty = false := by
    rw [List.any_eq_false]
    intro g hg
    simpa [List.isEmpty_iff] using hne g hg
  simp only [domainArgs] at hdup
  simp [partition_attributes, hany, hdup]

theorem checkField_eq_of_partition_ok {f : Syn.Field}
    {dom : List (List AttributeArg)} {fo : List Syn.Attribute}
    (hp : partition_attributes f.attrs = Except.ok (dom, fo)) :
    checkField f
      = (if dom.isEmpty then Except.ok ()
         else
           (InkAttribute.from_expanded dom >>= fun normalized =>
             if normalized.first ≠ AttributeArg.topic then
               Except.error Error.InvalidFirstFieldAttribute
             else if normalized.args.all (fun a => decide (a = AttributeArg.topic)) then
               Except.ok ()
             else
               Except.error Error.ConflictingFieldAttribute)) := by
  unfold checkField
  rw [hp, except_bind_ok]

theorem checkField_error_of_partition_error {f : Syn.Field} {e : Error}
    (hp : partition_attributes f.attrs = Except.error e) :
    checkField f = Except.error e := by
  unfold checkField
  rw [hp, except_bind_error]

theorem checkField_duplicate {f : Syn.Field}
    (hne : ∀ g ∈ domainArgLists f.attrs, g ≠ [])
    (hdup : hasDupKinds (domainArgs f.attrs) = true) :
    checkField f = Except.error Error.DuplicateAttribute :=
  checkField_error_of_partition_error (partition_attributes_error_dup hne hdup)

theorem isEmpty_false_of_flatten_cons {dom : List (List AttributeArg)}
    {a : AttributeArg} {rest : List AttributeArg} (h : dom.flatten = a :: rest) :
    dom.isEmpty = false := by
  cases dom with
  | nil => simp at h
  | cons g gs => rfl

theorem checkField_invalid_first {f : Syn.Field} {k : AttributeArg}
    {rest : List AttributeArg}
    (hp : partition_attributes f.attrs
      = Except.ok (domainArgLists f.attrs, foreignAttrs f.attrs))
    (hargs : domainArgs f.attrs = k :: rest) (hk : k ≠ AttributeArg.topic) :
    checkField f = Except.error Error.InvalidFirstFieldAttribute := by
  rw [checkField_eq_of_partition_ok hp]
  simp only [domainArgs] at hargs
  rw [isEmpty_false_of_flatten_cons hargs]
  rw [from_expanded_cons hargs, except_bind_ok]
  simp [hk]

theorem checkField_conflicting {f : Syn.Field} {rest : List AttributeArg}
    (hp : partition_attributes f.attrs
      = Except.ok (domainArgLists f.attrs, foreignAttrs f.attrs))
    (hargs : domainArgs f.attrs = AttributeArg.topic :: rest)
    (hbad : ∃ a ∈ rest, a ≠ AttributeArg.topic) :
    checkField f = Except.error Error.ConflictingFieldAttribute := by
  rw [checkField_eq_of_partition_ok hp]
  simp only [domainArgs] at hargs
  rw [isEmpty_false_of_flatten_cons hargs]
  rw [from_expanded_cons hargs, except_bind_ok]
  obtain ⟨a, ha, hat⟩ := hbad
  have hall : ((⟨AttributeArg.topic, rest⟩ : InkAttribute).args.all
      (fun a => decide (a = AttributeArg.topic))) = false := by
    rw [List.all_eq_false]
    exact ⟨a, by simp [InkAttribute.args, ha], by simpa using hat⟩
  rw [if_neg (by simp), hall]
  simp

theorem checkField_ok_cases {f : Syn.Field} (h : checkField f = Except.ok ()) :
    domainArgLists f.attrs = [] ∨ domainArgLists f.attrs = [[AttributeArg.topic]] := by
  cases hp : partition_attributes f.attrs with
  | error e => rw [checkField_error_of_partition_error hp] at h; exact absurd h (by simp)
  | ok p =>
    obtain ⟨hany, hnodup, hpv⟩ := partition_attributes_ok_iff.mp hp
    cases hpv
    rw [checkField_eq_of_partition_ok hp] at h
    by_cases hde : (domainArgLists f.attrs).isEmpty
    · left
      exact List.isEmpty_iff.mp hde
    · right
      rw [Bool.not_eq_true] at hde
      rw [if_neg (by simp [hde])] at h
      have hne : ∀ g ∈ domainArgLists f.attrs, g ≠ [] := by
        intro g hg
        rw [List.any_eq_false] at hany
        simpa [List.isEmpty_iff] using hany g hg
      cases hflat : (domainArgLists f.attrs).flatten with
      | nil =>
        rw [InkAttribute.from_expanded, hflat] at h
        exact absurd h (by simp [except_bind_error])
      | cons a rest =>
        rw [from_expanded_cons hflat, except_bind_ok] at h
        by_cases hfirst : a = AttributeArg.topic
        · subst hfirst
          rw [if_neg (by simp)] at h
          by_cases hall : (((⟨AttributeArg.topic, rest⟩ : InkAttribute)).args.all
              (fun a => decide (a = AttributeArg.topic)))
          · have hrest : ∀ b ∈ rest, b = AttributeArg.topic := by
              intro b hb
              have := List.all_eq_true.mp hall b (by simp [InkAttribute.args, hb])
              simpa using this
            simp only [domainArgs, hflat] at hnodup
            have hni : AttributeArg.topic ∉ rest := (hasDupKinds_cons.mp hnodup).1
            have : rest = [] := all_topic_nodup_rest_nil hrest hni
            subst this
            exact eq_singleton_of_flatten_singleton hne hflat
          · rw [Bool.not_eq_true] at hall
            rw [if_neg (by simp [hall])] at h
            exact absurd h (by simp)
        · rw [if_pos (by simp [hfirst])] at h
          exact absurd h (by simp)

theorem isTopicFlag_no_domain {attrs : List Syn.Attribute}
    (h : domainArgLists attrs = []) : isTopicFlag attrs = false := by
  simp [isTopicFlag, first_ink_attribute, h]

theorem isTopicFlag_topic_only {attrs : List Syn.Attribute}
    (h : domainArgLists attrs = [[AttributeArg.topic]]) : isTopicFlag attrs = true := by
  simp [isTopicFlag, first_ink_attribute, h, hasDupKinds]

theorem carriesTopic_no_domain {f : Syn.Field}
    (h : domainArgLists f.attrs = []) : carriesTopic f = false := by
  simp [carriesTopic, domainArgs, h]

theorem carriesTopic_topic_only {f : Syn.Field}
    (h : domainArgLists f.attrs = [[AttributeArg.topic]]) : carriesTopic f = true := by
  simp [carriesTopic, domainArgs, h]

theorem sanitize_eq_of_partition_ok {attrs : List Syn.Attribute}
    {first_req : AttributeArg} {pred : AttributeArg → Bool}
    {dom : List (List AttributeArg)} {fo : List Syn.Attribute}
    (hp : partition_attributes attrs = Except.ok (dom, fo)) :
    sanitize_attributes attrs first_req pred
      = (InkAttribute.from_expanded dom >>= fun normalized =>
          if normalized.first ≠ first_req then
            Except.error Error.UnexpectedFirstAttributeArgument
          else if normalized.args.all pred then
            Except.ok (normalized, fo)
          else
            Except.error Error.ConflictingAttributeArgument) := by
  unfold sanitize_attributes
  rw [hp, except_bind_ok]

theorem sanitize_error_of_partition_error {attrs : List Syn.Attribute}
    {first_req : AttributeArg} {pred : AttributeArg → Bool} {e : Error}
    (hp : partition_attributes attrs = Except.error e) :
    sanitize_attributes attrs first_req pred = Except.error e := by
  unfold sanitize_attributes
  rw [hp, except_bind_error]

theorem tryFrom_eq (item : Syn.ItemEnum) :
    InkEventDefinition.tryFrom item
      = (sanitize_attributes item.attrs AttributeArg.event eventDeclPred >>= fun p =>
          InkEventDefinition.new { item with attrs := p.2 } p.1.is_anonymous) := rfl

theorem tryFrom_sanitize_error {item : Syn.ItemEnum} {e : Error}
    (h : sanitize_attributes item.attrs AttributeArg.event eventDeclPred
      = Except.error e) :
    InkEventDefinition.tryFrom item = Except.error e := by
  rw [tryFrom_eq, h, except_bind_error]

theorem checkFields_ok_of_all {l : List Syn.Field}
    (h : ∀ g ∈ l, checkField g = Except.ok ()) : checkFields l = Except.ok () := by
  have := checkFields_append_clean h []
  simpa using this

theorem new_error_of_checkField {item : Syn.ItemEnum} {anon : Bool}
    {vpre : List Syn.Variant} {v : Syn.Variant} {vrest : List Syn.Variant}
    {fpre : List Syn.Field} {f : Syn.Field} {frest : List Syn.Field} {e : Error}
    (hv : item.variants = vpre ++ v :: vrest)
    (hf : v.fields = fpre ++ f :: frest)
    (hc1 : ∀ w ∈ vpre, ∀ g ∈ w.fields, domainArgLists g.attrs = [])
    (hc2 : ∀ g ∈ fpre, domainArgLists g.attrs = [])
    (he : checkField f = Except.error e) :
    InkEventDefinition.new item anon = Except.error e := by
  rw [new_error_iff, hv]
  rw [checkVariants_append_clean
    (fun w hw => checkFields_ok_of_all (fun g hg => checkField_no_domain (hc1 w hw g hg)))]
  rw [checkVariants_cons, hf]
  rw [checkFields_append_clean (fun g hg => checkField_no_domain (hc2 g hg))]
  rw [checkFields_cons, he, except_bind_error, except_bind_error]

theorem snd_mem_of_mem_enumFrom {α : Type} {l : List α} {n : Nat} {p : Nat × α}
    (h : p ∈ l.enumFrom n) : p.2 ∈ l := by
  induction l generalizing n with
  | nil => simp at h
  | cons a as ih =>
    simp only [List.enumFrom] at h
    rcases List.mem_cons.mp h with rfl | h2
    · simp
    · exact List.mem_cons_of_mem _ (ih h2)

theorem mem_variants_item {ed : InkEventDefinition} {v : EventVariant}
    (h : v ∈ ed.variants) : v.item ∈ ed.item.variants := by
  simp only [InkEventDefinition.variants] at h
  obtain ⟨p, hp, rfl⟩ := List.mem_map.mp h
  exact snd_mem_of_mem_enumFrom (l := ed.item.variants) (n := 0) (by simpa [List.enum] using hp)

/-- C1 (amended): provided partitioning the domain annotations of the
declaration succeeds (no argument-less domain annotation and no duplicated argument
kind), a declaration whose first domain argument kind is not `Event` fails
with `UnexpectedFirstAttributeArgument`, and one whose first kind is
`Event` but which carries a later kind other than `Anonymous` fails with
`ConflictingAttributeArgument` through the caller-supplied predicate. -/
theorem c1_first_and_conflict (item : Syn.ItemEnum)
    (hpart : ∃ p, partition_attributes item.attrs = Except.ok p) :
    (∀ k rest, domainArgs item.attrs = k :: rest → k ≠ AttributeArg.event →
      InkEventDefinition.tryFrom item
        = Except.error Error.UnexpectedFirstAttributeArgument)
    ∧ (∀ rest, domainArgs item.attrs = AttributeArg.event :: rest →
        (∃ a ∈ rest, a ≠ AttributeArg.anonymous) →
        InkEventDefinition.tryFrom item
          = Except.error Error.ConflictingAttributeArgument) := by
  obtain ⟨p, hp⟩ := hpart
  obtain ⟨hany, hnodup, rfl⟩ := partition_attributes_ok_iff.mp hp
  constructor
  · intro k rest hargs hk
    apply tryFrom_sanitize_error
    rw [sanitize_eq_of_partition_ok hp]
    have hflat : (domainArgLists item.attrs).flatten = k :: rest := by
      simpa [domainArgs] using hargs
    rw [from_expanded_cons hflat, except_bind_ok]
    simp [hk]
  · intro rest hargs hbad
    apply tryFrom_sanitize_error
    rw [sanitize_eq_of_partition_ok hp]
    have hflat : (domainArgLists item.attrs).flatten = AttributeArg.event :: rest := by
      simpa [domainArgs] using hargs
    rw [from_expanded_cons hflat, except_bind_ok]
    rw [if_neg (by simp)]
    obtain ⟨a, ha, hna⟩ := hbad
    have hnodup2 : hasDupKinds (AttributeArg.event :: rest) = false := by
      rw [← hargs]; exact hnodup
    have hnev : AttributeArg.event ∉ rest := (hasDupKinds_cons.mp hnodup2).1
    have hpa : eventDeclPred a = false := by
      have hae : a ≠ AttributeArg.event := fun hx => hnev (hx ▸ ha)
      simp [eventDeclPred, hae, hna]
    have hall : ((⟨AttributeArg.event, rest⟩ : InkAttribute).args.all eventDeclPred) = false := by
      rw [List.all_eq_false]
      exact ⟨a, by simp [InkAttribute.args, ha], by simp [hpa]⟩
    rw [hall]
    simp

/-- C2 (amended): for the first variant field carrying domain annotations
(all earlier fields carrying none), construction fails with
`InvalidFirstFieldAttribute` when the annotations of the field partition
successfully and the first flattened kind is not `Topic`; with the
duplicate-annotation error when some kind appears twice; and with
`ConflictingFieldAttribute` when the partition succeeds, the first kind is
`Topic` and a later kind is not `Topic`. -/
theorem c2_field_validation (item : Syn.ItemEnum) (anon : Bool)
    (vpre : List Syn.Variant) (v : Syn.Variant) (vrest : List Syn.Variant)
    (fpre : List Syn.Field) (f : Syn.Field) (frest : List Syn.Field)
    (hv : item.variants = vpre ++ v :: vrest)
    (hf : v.fields = fpre ++ f :: frest)
    (hc1 : ∀ w ∈ vpre, ∀ g ∈ w.fields, domainArgLists g.attrs = [])
    (hc2 : ∀ g ∈ fpre, domainArgLists g.attrs = []) :
    ((∃ p, partition_attributes f.attrs = Except.ok p) →
      ∀ k rest, domainArgs f.attrs = k :: rest → k ≠ AttributeArg.topic →
        InkEventDefinition.new item anon
          = Except.error Error.InvalidFirstFieldAttribute)
    ∧ ((∀ g ∈ domainArgLists f.attrs, g ≠ []) →
        hasDupKinds (domainArgs f.attrs) = true →
        InkEventDefinition.new item anon = Except.error Error.DuplicateAttribute)
    ∧ ((∃ p, partition_attributes f.attrs = Except.ok p) →
      ∀ rest, domainArgs f.attrs = AttributeArg.topic :: rest →
        (∃ a ∈ rest, a ≠ AttributeArg.topic) →
        InkEventDefinition.new item anon
          = Except.error Error.ConflictingFieldAttribute) := by
  refine ⟨?_, ?_, ?_⟩
  · rintro ⟨p, hp⟩ k rest hargs hk
    obtain ⟨hany, hnodup, rfl⟩ := partition_attributes_ok_iff.mp hp
    exact new_error_of_checkField hv hf hc1 hc2 (checkField_invalid_first hp hargs hk)
  · intro hne hdup
    exact new_error_of_checkField hv hf hc1 hc2 (checkField_duplicate hne hdup)
  · rintro ⟨p, hp⟩ rest hargs hbad
    obtain ⟨hany, hnodup, rfl⟩ := partition_attributes_ok_iff.mp hp
    exact new_error_of_checkField hv hf hc1 hc2 (checkField_conflicting hp hargs hbad)

/-- C1 counterexample: a declaration annotated `#[ink(storage, storage)]`
has first domain argument kind `Storage` (not `Event`), yet construction
fails with the duplicate-annotation error rather than
`UnexpectedFirstAttributeArgument`, refuting the claim as stated. -/
theorem c1_counterexample :
    (domainArgs itemC1.attrs).head? = some AttributeArg.storage
    ∧ AttributeArg.storage ≠ AttributeArg.event
    ∧ InkEventDefinition.tryFrom itemC1 = Except.error Error.DuplicateAttribute
    ∧ Error.DuplicateAttribute ≠ Error.UnexpectedFirstAttributeArgument :=
  ⟨rfl, by decide, rfl, by decide⟩

/-- C1 witness: concrete instances of both parts of the amended claim. -/
theorem c1_witness :
    InkEventDefinition.tryFrom itemW1a
      = Except.error Error.UnexpectedFirstAttributeArgument
    ∧ InkEventDefinition.tryFrom itemW1b
      = Except.error Error.ConflictingAttributeArgument :=
  ⟨(c1_first_and_conflict itemW1a ⟨([[AttributeArg.storage]], []), rfl⟩).1
      AttributeArg.storage [] rfl (by decide),
   (c1_first_and_conflict itemW1b
      ⟨([[AttributeArg.event, AttributeArg.storage]], []), rfl⟩).2
      [AttributeArg.storage] rfl ⟨AttributeArg.storage, by decide, by decide⟩⟩

/-- C2 counterexample: a field annotated `#[ink(topic, storage, storage)]`
has first kind `Topic` and a subsequent non-`Topic` kind, yet construction
fails with the duplicate-annotation error rather than
`ConflictingFieldAttribute`, refuting the claim as stated. -/
theorem c2_counterexample :
    domainArgs fieldC2.attrs
      = [AttributeArg.topic, AttributeArg.storage, AttributeArg.storage]
    ∧ InkEventDefinition.new itemC2 false = Except.error Error.DuplicateAttribute
    ∧ Error.DuplicateAttribute ≠ Error.ConflictingFieldAttribute :=
  ⟨rfl, rfl, by decide⟩

/-- C2 witness: a concrete instance of the first part of the amended
claim. -/
theorem c2_witness :
    InkEventDefinition.new itemW2 false
      = Except.error Error.InvalidFirstFieldAttribute :=
  (c2_field_validation itemW2 false [] ⟨"A", [fieldW2]⟩ [] [] fieldW2 [] rfl rfl
      (by simp) (by simp)).1 ⟨([[AttributeArg.message]], []), rfl⟩
      AttributeArg.message [] rfl (by decide)

/-- C3: for every field of every variant of an event definition accepted
by the validating constructor, the `is_topic` flag produced by the
`fields` accessor is true exactly when the field carries the `Topic`
marker; a field without domain annotations is accepted and flagged
`false`. -/
theorem c3_is_topic_iff (item : Syn.ItemEnum) (anon : Bool) (ed : InkEventDefinition)
    (h : InkEventDefinition.new item anon = Except.ok ed) :
    (∀ v ∈ ed.variants, ∀ ef ∈ v.fields, ef.is_topic = carriesTopic ef.field)
    ∧ (∀ f : Syn.Field, domainArgLists f.attrs = [] →
        checkField f = Except.ok () ∧ isTopicFlag f.attrs = false) := by
  obtain ⟨hc, rfl⟩ := new_ok_iff.mp h
  constructor
  · intro v hv ef hef
    have hvm : v.item ∈ item.variants := mem_variants_item hv
    have hfsok := checkVariants_ok_mem hc v.item hvm
    obtain ⟨field, hfm, rfl⟩ := List.mem_map.mp hef
    have hfok := checkFields_ok_mem hfsok field hfm
    rcases checkField_ok_cases hfok with hd | hd
    · show isTopicFlag field.attrs = carriesTopic field
      rw [isTopicFlag_no_domain hd, carriesTopic_no_domain hd]
    · show isTopicFlag field.attrs = carriesTopic field
      rw [isTopicFlag_topic_only hd, carriesTopic_topic_only hd]
  · intro f hf
    exact ⟨checkField_no_domain hf, isTopicFlag_no_domain hf⟩

/-- C3 witness: the flag of a concrete topic-marked field of a validated
definition. -/
theorem c3_witness :
    (⟨true, fieldTopicFix⟩ : EventField).is_topic = carriesTopic fieldTopicFix :=
  (c3_is_topic_iff itemW3 false ⟨itemW3, false⟩ rfl).1
    ⟨0, ⟨"A", [fieldTopicFix, fieldPlainFix]⟩⟩ (by decide)
    ⟨true, fieldTopicFix⟩ (by decide)

theorem any_isEmpty_false_of_ne_nil {dom : List (List AttributeArg)}
    (h : ∀ g ∈ dom, g ≠ []) : dom.any List.isEmpty = false := by
  rw [List.any_eq_false]
  intro g hg
  simpa [List.isEmpty_iff] using h g hg

theorem sanitize_congr {a1 a2 : List Syn.Attribute} {fr : AttributeArg}
    {pred : AttributeArg → Bool}
    (h1 : ∀ g ∈ domainArgLists a1, g ≠ []) (h2 : ∀ g ∈ domainArgLists a2, g ≠ [])
    (hd : domainArgs a1 = domainArgs a2) (hf : foreignAttrs a1 = foreignAttrs a2) :
    sanitize_attributes a1 fr pred = sanitize_attributes a2 fr pred := by
  have hany1 := any_isEmpty_false_of_ne_nil h1
  have hany2 := any_isEmpty_false_of_ne_nil h2
  cases hdup : hasDupKinds (domainArgs a1) with
  | true =>
    rw [sanitize_error_of_partition_error (partition_attributes_error_dup h1 hdup),
      sanitize_error_of_partition_error (partition_attributes_error_dup h2 (hd ▸ hdup))]
  | false =>
    have hp1 : partition_attributes a1 = Except.ok (domainArgLists a1, foreignAttrs a1) :=
      partition_attributes_ok_iff.mpr ⟨hany1, hdup, rfl⟩
    have hp2 : partition_attributes a2 = Except.ok (domainArgLists a2, foreignAttrs a2) :=
      partition_attributes_ok_iff.mpr ⟨hany2, hd ▸ hdup, rfl⟩
    rw [sanitize_eq_of_partition_ok hp1, sanitize_eq_of_partition_ok hp2]
    have hexp : InkAttribute.from_expanded (domainArgLists a1)
        = InkAttribute.from_expanded (domainArgLists a2) := by
      unfold InkAttribute.from_expanded
      rw [show (domainArgLists a1).flatten = (domainArgLists a2).flatten from hd]
    rw [hexp, hf]

/-- C4: for every valid declaration (public, non-generic, first domain
argument `Event`, optionally `Anonymous`, with all fields passing the
field checks), construction succeeds and the `anonymous` flag equals
whether `Anonymous` was present; and the result is unchanged under any
regrouping of the domain annotations (separate markers versus one combined
annotation) that keeps the flattened argument kinds and the foreign
attributes the same. -/
theorem c4_anonymous (item : Syn.ItemEnum)
    (hargs : domainArgs item.attrs = [AttributeArg.event]
      ∨ domainArgs item.attrs = [AttributeArg.event, AttributeArg.anonymous])
    (hne : ∀ g ∈ domainArgLists item.attrs, g ≠ [])
    (_hvis : item.vis = Syn.Visibility.public)
    (_hgen : item.generics = [])
    (hfields : checkVariants item.variants = Except.ok ()) :
    (∃ ed, InkEventDefinition.tryFrom item = Except.ok ed
      ∧ (ed.anonymous = true ↔ AttributeArg.anonymous ∈ domainArgs item.attrs)
      ∧ ed.item = { item with attrs := foreignAttrs item.attrs })
    ∧ (∀ attrs2, domainArgs attrs2 = domainArgs item.attrs →
        foreignAttrs attrs2 = foreignAttrs item.attrs →
        (∀ g ∈ domainArgLists attrs2, g ≠ []) →
        InkEventDefinition.tryFrom { item with attrs := attrs2 }
          = InkEventDefinition.tryFrom item) := by
  have hany := any_isEmpty_false_of_ne_nil hne
  have hnodup : hasDupKinds (domainArgs item.attrs) = false := by
    rcases hargs with h | h <;> rw [h] <;> decide
  have hp : partition_attributes item.attrs
      = Except.ok (domainArgLists item.attrs, foreignAttrs item.attrs) :=
    partition_attributes_ok_iff.mpr ⟨hany, hnodup, rfl⟩
  constructor
  · rcases hargs with h | h
    · have hflat : (domainArgLists item.attrs).flatten = [AttributeArg.event] := by
        simpa [domainArgs] using h
      have hsan : sanitize_attributes item.attrs AttributeArg.event eventDeclPred
          = Except.ok (⟨AttributeArg.event, []⟩, foreignAttrs item.attrs) := by
        rw [sanitize_eq_of_partition_ok hp, from_expanded_cons hflat, except_bind_ok]
        rw [if_neg (by simp), if_pos (by decide)]
      refine ⟨⟨{ item with attrs := foreignAttrs item.attrs }, false⟩, ?_, ?_, rfl⟩
      · rw [tryFrom_eq, hsan, except_bind_ok]
        show InkEventDefinition.new { item with attrs := foreignAttrs item.attrs }
            (⟨AttributeArg.event, []⟩ : InkAttribute).is_anonymous = _
        rw [show (⟨AttributeArg.event, []⟩ : InkAttribute).is_anonymous = false from rfl]
        rw [new_eq,
          show ({ item with attrs := foreignAttrs item.attrs } : Syn.ItemEnum).variants
            = item.variants from rfl,
          hfields, except_bind_ok]
      · rw [h]
        simp
    · have hflat : (domainArgLists item.attrs).flatten
          = [AttributeArg.event, AttributeArg.anonymous] := by
        simpa [domainArgs] using h
      have hsan : sanitize_attributes item.attrs AttributeArg.event eventDeclPred
          = Except.ok (⟨AttributeArg.event, [AttributeArg.anonymous]⟩,
              foreignAttrs item.attrs) := by
        rw [sanitize_eq_of_partition_ok hp, from_expanded_cons hflat, except_bind_ok]
        rw [if_neg (by simp), if_pos (by decide)]
      refine ⟨⟨{ item with attrs := foreignAttrs item.attrs }, true⟩, ?_, ?_, rfl⟩
      · rw [tryFrom_eq, hsan, except_bind_ok]
        show InkEventDefinition.new { item with attrs := foreignAttrs item.attrs }
            (⟨AttributeArg.event, [AttributeArg.anonymous]⟩ : InkAttribute).is_anonymous = _
        rw [show (⟨AttributeArg.event, [AttributeArg.anonymous]⟩ : InkAttribute).is_anonymous
          = true from rfl]
        rw [new_eq,
          show ({ item with attrs := foreignAttrs item.attrs } : Syn.ItemEnum).variants
            = item.variants from rfl,
          hfields, except_bind_ok]
      · rw [h]
        simp
  · intro attrs2 hd hf hne2
    rw [tryFrom_eq, tryFrom_eq]
    have h1 : sanitize_attributes ({ item with attrs := attrs2 } : Syn.ItemEnum).attrs
          AttributeArg.event eventDeclPred
        = sanitize_attributes item.attrs AttributeArg.event eventDeclPred :=
      sanitize_congr hne2 hne hd hf
    rw [h1]

/-- C4 witness: a concrete anonymous event declaration, including the
equality of the combined `#[ink(event, anonymous)]` form and the separate
`#[ink(event)] #[ink(anonymous)]` form. -/
theorem c4_witness :
    (∃ ed, InkEventDefinition.tryFrom itemW4 = Except.ok ed
      ∧ (ed.anonymous = true ↔ AttributeArg.anonymous ∈ domainArgs itemW4.attrs)
      ∧ ed.item = { itemW4 with attrs := foreignAttrs itemW4.attrs })
    ∧ InkEventDefinition.tryFrom { itemW4 with attrs :=
          [Syn.Attribute.ink [AttributeArg.event],
            Syn.Attribute.ink [AttributeArg.anonymous]] }
        = InkEventDefinition.tryFrom itemW4 :=
  ⟨(c4_anonymous itemW4 (Or.inr rfl) (by decide) rfl rfl rfl).1,
   (c4_anonymous itemW4 (Or.inr rfl) (by decide) rfl rfl rfl).2
      [Syn.Attribute.ink [AttributeArg.event], Syn.Attribute.ink [AttributeArg.anonymous]]
      rfl rfl (by decide)⟩

theorem foldl_max_le_init (l : List Nat) (a : Nat) : a ≤ l.foldl max a := by
  induction l generalizing a with
  | nil => exact Nat.le_refl a
  | cons b bs ih => exact le_trans (Nat.le_max_left a b) (ih (max a b))

theorem le_foldl_max_of_mem {l : List Nat} {x : Nat} (h : x ∈ l) (a : Nat) :
    x ≤ l.foldl max a := by
  induction l generalizing a with
  | nil => simp at h
  | cons b bs ih =>
    rcases List.mem_cons.mp h with rfl | h2
    · exact le_trans (Nat.le_max_right a x) (foldl_max_le_init bs (max a x))
    · exact ih h2 (max a b)

theorem foldl_max_eq_init_or_mem (l : List Nat) (a : Nat) :
    l.foldl max a = a ∨ l.foldl max a ∈ l := by
  induction l generalizing a with
  | nil => left; rfl
  | cons b bs ih =>
    rcases ih (max a b) with h | h
    · rcases Nat.le_total a b with hab | hab
      · right
        rw [show List.foldl max a (b :: bs) = List.foldl max (max a b) bs from rfl, h,
          Nat.max_eq_right hab]
        exact List.mem_cons_self _ _
      · left
        rw [show List.foldl max a (b :: bs) = List.foldl max (max a b) bs from rfl, h,
          Nat.max_eq_left hab]
    · right
      exact List.mem_cons_of_mem _ h

theorem mem_le_max_getD {l : List Nat} {x : Nat} (h : x ∈ l) : x ≤ l.max?.getD 0 := by
  cases l with
  | nil => simp at h
  | cons a as =>
    rw [show (a :: as).max?.getD 0 = as.foldl max a from rfl]
    rcases List.mem_cons.mp h with rfl | h2
    · exact foldl_max_le_init as x
    · exact le_foldl_max_of_mem h2 a

theorem max_getD_zero_or_mem (l : List Nat) :
    l.max?.getD 0 = 0 ∨ l.max?.getD 0 ∈ l := by
  cases l with
  | nil => left; rfl
  | cons a as =>
    right
    rw [show (a :: as).max?.getD 0 = as.foldl max a from rfl]
    rcases foldl_max_eq_init_or_mem as a with h | h
    · rw [h]; exact List.mem_cons_self _ _
    · exact List.mem_cons_of_mem _ h

/-- C5: `max_len_topics` is the maximum (not the sum) over all variants of
the per-variant count of topic-marked fields: it bounds the count of every
variant, it is attained by some variant unless it is zero, and it is zero
for a declaration without variants. -/
theorem c5_max_len_topics (ed : InkEventDefinition) :
    (∀ v ∈ ed.variants,
      (v.fields.filter fun f => f.is_topic).length ≤ ed.max_len_topics)
    ∧ (ed.max_len_topics = 0
        ∨ ∃ v ∈ ed.variants,
            (v.fields.filter fun f => f.is_topic).length = ed.max_len_topics)
    ∧ (ed.item.variants = [] → ed.max_len_topics = 0) := by
  refine ⟨?_, ?_, ?_⟩
  · intro v hv
    exact mem_le_max_getD (List.mem_map_of_mem _ hv)
  · rcases max_getD_zero_or_mem
        (ed.variants.map fun v => (v.fields.filter fun f => f.is_topic).length)
      with h | h
    · left; exact h
    · right
      obtain ⟨v, hv, hveq⟩ := List.mem_map.mp h
      exact ⟨v, hv, hveq⟩
  · intro h
    show ((ed.variants.map fun v =>
      (v.fields.filter fun f => f.is_topic).length).max?).getD 0 = 0
    have hv : ed.variants = [] := by
      simp [InkEventDefinition.variants, h]
    rw [hv]
    rfl

/-- C5 witness: a declaration with per-variant topic counts 1, 0 and 2 has
`max_len_topics` 2, and the count of the first variant is bounded by it. -/
theorem c5_witness :
    edW5.max_len_topics = 2
    ∧ ((⟨0, ⟨"A", [fieldTopicFix]⟩⟩ : EventVariant).fields.filter
        fun f => f.is_topic).length ≤ edW5.max_len_topics :=
  ⟨by decide,
   (c5_max_len_topics edW5).1 ⟨0, ⟨"A", [fieldTopicFix]⟩⟩ (by decide)⟩

/-- C6 (amended): provided the declaration-level annotation sanitization
succeeds, a declaration with a non-empty generic parameter list fails with
`GenericNotSupported`, and a non-generic declaration whose visibility is
not public fails with `NonPublicNotSupported`. -/
theorem c6_generic_nonpub (s : Syn.ItemStruct)
    (hs : ∃ p, sanitize_attributes s.attrs AttributeArg.event eventDeclPred
      = Except.ok p) :
    (s.generics ≠ [] →
      InkEventDefinition.tryFromItemStruct s
        = Except.error Error.GenericNotSupported)
    ∧ (s.generics = [] → s.vis ≠ Syn.Visibility.public →
      InkEventDefinition.tryFromItemStruct s
        = Except.error Error.NonPublicNotSupported) := by
  obtain ⟨p, hp⟩ := hs
  obtain ⟨na, oa⟩ := p
  constructor
  · intro hg
    unfold InkEventDefinition.tryFromItemStruct
    rw [hp, except_bind_ok]
    show (if s.generics ≠ [] then Except.error Error.GenericNotSupported
      else if s.vis ≠ Syn.Visibility.public then
        (Except.error Error.NonPublicNotSupported : Except Error InkEventDefinition)
      else InkEventDefinition.new ⟨oa, s.vis, s.ident, [], [⟨s.ident, s.fields⟩]⟩
        na.is_anonymous) = Except.error Error.GenericNotSupported
    rw [if_pos hg]
  · intro hg hv
    unfold InkEventDefinition.tryFromItemStruct
    rw [hp, except_bind_ok]
    show (if s.generics ≠ [] then Except.error Error.GenericNotSupported
      else if s.vis ≠ Syn.Visibility.public then
        (Except.error Error.NonPublicNotSupported : Except Error InkEventDefinition)
      else InkEventDefinition.new ⟨oa, s.vis, s.ident, [], [⟨s.ident, s.fields⟩]⟩
        na.is_anonymous) = Except.error Error.NonPublicNotSupported
    rw [if_neg (by simp [hg]), if_pos hv]

/-- C6 counterexample: a generic declaration whose first domain argument
kind is `Storage` fails with `UnexpectedFirstAttributeArgument`, not
`GenericNotSupported`, refuting the clause `regardless of other validity`
of the claim. -/
theorem c6_counterexample :
    sC6.generics ≠ []
    ∧ InkEventDefinition.tryFromItemStruct sC6
        = Except.error Error.UnexpectedFirstAttributeArgument
    ∧ Error.UnexpectedFirstAttributeArgument ≠ Error.GenericNotSupported :=
  ⟨by decide, rfl, by decide⟩

/-- C6 witness: concrete instances of both parts of the amended claim. -/
theorem c6_witness :
    InkEventDefinition.tryFromItemStruct sW6a
      = Except.error Error.GenericNotSupported
    ∧ InkEventDefinition.tryFromItemStruct sW6b
      = Except.error Error.NonPublicNotSupported :=
  ⟨(c6_generic_nonpub sW6a ⟨(⟨AttributeArg.event, []⟩, []), rfl⟩).1 (by decide),
   (c6_generic_nonpub sW6b ⟨(⟨AttributeArg.event, []⟩, []), rfl⟩).2 rfl (by decide)⟩

/-- C7 (amended): every instance produced by the `TryFrom` construction
path has passed all checks, in that re-running the validating constructor
on it succeeds and returns it unchanged. -/
theorem c7_tryFrom_validates (item : Syn.ItemEnum) (ed : InkEventDefinition)
    (h : InkEventDefinition.tryFrom item = Except.ok ed) :
    InkEventDefinition.new ed.item ed.anonymous = Except.ok ed := by
  rw [tryFrom_eq] at h
  cases hs : sanitize_attributes item.attrs AttributeArg.event eventDeclPred with
  | error e =>
    rw [hs, except_bind_error] at h
    exact absurd h (by simp)
  | ok p =>
    rw [hs, except_bind_ok] at h
    obtain ⟨hc, rfl⟩ := new_ok_iff.mp h
    exact new_ok_iff.mpr ⟨hc, rfl⟩

/-- C7 counterexample: `from_event_def_tokens` is a second code path that
produces an instance whose item the validating constructor rejects,
refuting the claim that no other code path can produce an instance. -/
theorem c7_counterexample :
    InkEventDefinition.from_event_def_tokens (Except.ok []) (Except.ok itemC7)
      = Except.ok ⟨itemC7, false⟩
    ∧ InkEventDefinition.new itemC7 false
      = Except.error Error.InvalidFirstFieldAttribute :=
  ⟨rfl, rfl⟩

/-- C7 witness: a concrete instance produced by `TryFrom` re-validates to
itself. -/
theorem c7_witness :
    InkEventDefinition.new
        (⟨⟨[], Syn.Visibility.public, "E", [], []⟩, false⟩ : InkEventDefinition).item
        (⟨⟨[], Syn.Visibility.public, "E", [], []⟩, false⟩ : InkEventDefinition).anonymous
      = Except.ok ⟨⟨[], Syn.Visibility.public, "E", [], []⟩, false⟩ :=
  c7_tryFrom_validates itemW7 ⟨⟨[], Syn.Visibility.public, "E", [], []⟩, false⟩ rfl

/-- C8 (amended): construction is total with typed errors, and on an
event definition accepted by the validating constructor no field view can
hit the panicking branch of `EventField::attrs`. -/
theorem c8_no_panic_validated (item : Syn.ItemEnum) (anon : Bool)
    (ed : InkEventDefinition)
    (h : InkEventDefinition.new item anon = Except.ok ed) :
    ∀ v ∈ ed.variants, ∀ ef ∈ v.fields,
      ∃ r, EventField.attrs ef = PanicOr.ok r := by
  obtain ⟨hc, rfl⟩ := new_ok_iff.mp h
  intro v hv ef hef
  have hvm : v.item ∈ item.variants := mem_variants_item hv
  have hfsok := checkVariants_ok_mem hc v.item hvm
  obtain ⟨field, hfm, rfl⟩ := List.mem_map.mp hef
  have hfok := checkFields_ok_mem hfsok field hfm
  cases hp : partition_attributes field.attrs with
  | error e =>
    rw [checkField_error_of_partition_error hp] at hfok
    exact absurd hfok (by simp)
  | ok p =>
    exact ⟨p.2, by simp [EventField.attrs, hp]⟩

/-- C8 counterexample: on an instance produced by the non-validating
`from_event_def_tokens` path, the `EventField::attrs` accessor panics
(through `expect`) instead of returning a typed error, refuting the claim
that no failure path panics. -/
theorem c8_counterexample :
    InkEventDefinition.from_event_def_tokens (Except.ok []) (Except.ok itemC8)
      = Except.ok ⟨itemC8, false⟩
    ∧ EventVariant.fields ⟨0, ⟨"A", [fieldC8]⟩⟩ = [⟨true, fieldC8⟩]
    ∧ EventField.attrs ⟨true, fieldC8⟩
        = PanicOr.panicked "encountered invalid event field attributes" :=
  ⟨rfl, rfl, rfl⟩

/-- C8 witness: the accessor returns normally on a concrete validated
field. -/
theorem c8_witness :
    ∃ r, EventField.attrs ⟨true, fieldTopicFix⟩ = PanicOr.ok r :=
  c8_no_panic_validated itemW8 false ⟨itemW8, false⟩ rfl
    ⟨0, ⟨"A", [fieldTopicFix]⟩⟩ (by decide) ⟨true, fieldTopicFix⟩ (by decide)

theorem from_event_def_tokens_eq (c : Except Error (List AttributeArg))
    (i : Except Error Syn.ItemEnum) :
    InkEventDefinition.from_event_def_tokens c i
      = (c >>= fun _ => i >>= fun item => Except.ok ⟨item, false⟩) := rfl

/-- C9: `from_event_def_tokens` parses its configuration token stream but
ignores it for the anonymity flag: whenever it returns a definition, that
definition carries `anonymous = false`. -/
theorem c9_anonymous_hardcoded_false (config : Except Error (List AttributeArg))
    (input : Except Error Syn.ItemEnum) (ed : InkEventDefinition)
    (h : InkEventDefinition.from_event_def_tokens config input = Except.ok ed) :
    ed.anonymous = false := by
  rw [from_event_def_tokens_eq] at h
  cases config with
  | error e =>
    rw [except_bind_error] at h
    exact absurd h (by simp)
  | ok c =>
    rw [except_bind_ok] at h
    cases input with
    | error e =>
      rw [except_bind_error] at h
      exact absurd h (by simp)
    | ok item =>
      rw [except_bind_ok] at h
      have : (⟨item, false⟩ : InkEventDefinition) = ed := by
        simpa using h
      rw [← this]

/-- C9 witness: a concrete parse through `from_event_def_tokens`. -/
theorem c9_witness :
    (⟨⟨[], Syn.Visibility.public, "E", [], []⟩, false⟩
      : InkEventDefinition).anonymous = false :=
  c9_anonymous_hardcoded_false (Except.ok [])
    (Except.ok ⟨[], Syn.Visibility.public, "E", [], []⟩)
    ⟨⟨[], Syn.Visibility.public, "E", [], []⟩, false⟩ rfl

/-- C10: the `fields` accessor is total, yielding one view per underlying
field regardless of its attributes, and any error while extracting a
first ink! attribute of a field is swallowed, the topic flag defaulting to
`false`. -/
theorem c10_fields_total (v : EventVariant) :
    (v.fields.map EventField.field = v.item.fields)
    ∧ (∀ attrs : List Syn.Attribute, ∀ e : Error,
        first_ink_attribute attrs = Except.error e → isTopicFlag attrs = false) := by
  constructor
  · simp [EventVariant.fields, Function.comp_def]
  · intro attrs e h
    simp [isTopicFlag, h]

/-- C10 witness: concrete field views, including a malformed argument-less
ink! attribute whose extraction error is swallowed into `false`. -/
theorem c10_witness :
    ((⟨0, ⟨"A", [fieldTopicFix, fieldPlainFix]⟩⟩ : EventVariant).fields.map
        EventField.field = [fieldTopicFix, fieldPlainFix])
    ∧ isTopicFlag [Syn.Attribute.ink []] = false :=
  ⟨(c10_fields_total ⟨0, ⟨"A", [fieldTopicFix, fieldPlainFix]⟩⟩).1,
   (c10_fields_total ⟨0, ⟨"A", [fieldTopicFix, fieldPlainFix]⟩⟩).2
      [Syn.Attribute.ink []] Error.EmptyExpandedAttributes rfl⟩
